import Mathlib

/-!
Verification of the distributed speech-translation evaluation harness
(`eval_audio/evaluate_st.py`): dataset sharding (`InferenceSampler`),
the post-barrier gather/merge, result assembly, and grouped scoring
with language-derived sacrebleu tokenizers.

Machine integers of the Python source are modelled as `Int`, with
Python floor division and modulo rendered as `Int.fdiv` / `Int.fmod`.
Fallible steps are rendered as `Except`; a step whose source code has
no failure path is a computation that always succeeds.
-/

namespace EvalST

/-! ## Shard planner (`InferenceSampler`, lines 113-137) -/

/-- Python `range(a, b)` as a list of integers. -/
def pyRange (a b : Int) : List Int :=
  (List.range (b - a).toNat).map (fun (i : Nat) => a + (i : Int))

/-- Line 125-127: `shard_size = total_size // world_size`,
`left = total_size % world_size`,
`shard_sizes = [shard_size + int(r < left) for r in range(world_size)]`. -/
def shardSizes (total_size world_size : Int) : List Int :=
  let shard_size := total_size.fdiv world_size
  let left := total_size.fmod world_size
  (List.range world_size.toNat).map
    (fun (r : Nat) => shard_size + if (r : Int) < left then 1 else 0)

/-- Line 129: `begin = sum(shard_sizes[:rank])`. -/
def shardBegin (total_size world_size : Int) (rank : Nat) : Int :=
  ((shardSizes total_size world_size).take rank).sum

/-- Line 130: `end = min(sum(shard_sizes[:rank + 1]), total_size)`. -/
def shardEnd (total_size world_size : Int) (rank : Nat) : Int :=
  min (shardBegin total_size world_size (rank + 1)) total_size

/-- `InferenceSampler._get_local_indices`, line 131: `range(begin, end)`. -/
def localIndices (total_size world_size : Int) (rank : Nat) : List Int :=
  pyRange (shardBegin total_size world_size rank)
    (shardEnd total_size world_size rank)

/-- Failure modes of sampler construction: the `assert size > 0` on line 117,
and the `ZeroDivisionError` Python raises at `total_size // world_size` when
the world size is zero. -/
inductive PlanError where
  | assertionError
  | zeroDivisionError
deriving DecidableEq, Repr

/-- `InferenceSampler.__init__` (lines 115-121): asserts `size > 0`, then
computes the local indices; division by a zero world size raises. No other
validation is performed (in particular none on a negative world size). -/
def samplerInit (size world_size : Int) (rank : Nat) :
    Except PlanError (List Int) :=
  if size > 0 then
    if world_size = 0 then Except.error PlanError.zeroDivisionError
    else Except.ok (localIndices size world_size rank)
  else Except.error PlanError.assertionError

/-! ## Dataset length (`AudioDatasetModified.__len__`, lines 40-43) -/

/-- Lines 40-43: `min(self.limit, len(self.ds))` when `self.limit > 0`,
otherwise `len(self.ds)`. -/
def datasetLen (limit : Int) (dsLen : Nat) : Int :=
  if limit > 0 then min limit (dsLen : Int) else (dsLen : Int)

/-! ## Worker loop (lines 183-196) -/

/-- One evaluation item as produced by `AudioDatasetModified.__getitem__`
and consumed by `collate_fn_modified` (audio tensors are opaque and
irrelevant to the harness, so they are omitted). -/
structure EvalItem where
  prompt : String
  source : String
  audio_path : String
  gt : String
deriving DecidableEq, Repr

/-- The four per-worker accumulator lists of lines 183-186. -/
structure WorkerState where
  gts : List String
  sources : List String
  rets : List String
  audio_paths : List String
deriving DecidableEq, Repr

/-- The only failure mode the spec assigns to the worker loop. -/
inductive RunError where
  | contractViolation
deriving DecidableEq, Repr

/-- One iteration of the loop at lines 187-196: collate the batch into its
four field lists, run inference, and `extend` each accumulator. -/
def workerStep (infer : List EvalItem → List String)
    (st : WorkerState) (batch : List EvalItem) : WorkerState :=
  { gts := st.gts ++ batch.map (fun x => x.gt)
    sources := st.sources ++ batch.map (fun x => x.source)
    rets := st.rets ++ infer batch
    audio_paths := st.audio_paths ++ batch.map (fun x => x.audio_path) }

/-- The whole worker loop. The source performs no length check on the
inference output, so viewed as a fallible computation it always succeeds. -/
def workerRun (batches : List (List EvalItem))
    (infer : List EvalItem → List String) : Except RunError WorkerState :=
  Except.ok (batches.foldl (workerStep infer) ⟨[], [], [], []⟩)

/-! ## Aggregation after the barrier (lines 198-215) -/

/-- The only failure mode the spec assigns to the aggregator. -/
inductive AggError where
  | countMismatch
deriving DecidableEq, Repr

/-- Lines 210-215: `[_ for _ in itertools.chain.from_iterable(merged)]`
over the rank-indexed gathered lists. -/
def mergeGathered (gathered : List (List String)) : List String :=
  gathered.flatten

/-- The post-gather merge as a fallible step: the source performs no count
check of any kind, so it always succeeds with the flat concatenation. -/
def aggregate (gathered : List (List String)) :
    Except AggError (List String) :=
  Except.ok (mergeGathered gathered)

/-! ## Result assembly on rank 0 (lines 220-230) -/

/-- One record of the persisted `results` list (lines 222-227). -/
structure ResultItem where
  gt : String
  response : String
  source : String
  audio_path : String
deriving DecidableEq, Repr

/-- Lines 220-227:
`for gt, response, source, audio_path in zip(merged_gts, merged_responses,
merged_sources, merged_audio_paths)`. Python `zip` stops at the shortest
of the four lists. -/
def buildResults : List String → List String → List String → List String →
    List ResultItem
  | g :: gs, r :: rs, s :: ss, p :: ps =>
      { gt := g, response := r, source := s, audio_path := p } ::
        buildResults gs rs ss ps
  | _, _, _, _ => []

/-! ## Group scoring (lines 231-251) -/

/-- The only failure mode of the tag-parsing step: Python raises
`IndexError` when `source.split("_")[-2]` indexes a too-short list. -/
inductive ScoreError where
  | indexError
deriving DecidableEq, Repr

/-- Python `str.split` specialised to the `"_"` separator used on line 236,
written structurally on the character list (empty pieces are kept, exactly
as in Python). -/
def splitCharsAux : List Char → List Char → List (List Char)
  | [], acc => [acc.reverse]
  | c :: rest, acc =>
      if c = '_' then acc.reverse :: splitCharsAux rest []
      else splitCharsAux rest (c :: acc)

/-- `source.split("_")`. -/
def splitUnderscore (source : String) : List String :=
  (splitCharsAux source.data []).map (fun cs => String.mk cs)

/-- `source.split("_")[-2]` (line 236): the second-to-last piece; Python
raises `IndexError` when the split yields fewer than two pieces. -/
def langSegment (source : String) : Option String :=
  let parts := splitUnderscore source
  if h : 2 ≤ parts.length then
    some (parts.get ⟨parts.length - 2, by omega⟩)
  else none

/-- Lines 236-242: map the extracted language segment to a sacrebleu
tokenizer name (`ja` to `ja-mecab`, `zh` to `zh`, anything else to the
default `13a`); a failed extraction is the propagated `IndexError`. -/
def resolvePolicy (source : String) : Except ScoreError String :=
  match langSegment source with
  | none => Except.error ScoreError.indexError
  | some text_lan =>
      Except.ok
        (if text_lan = "ja" then "ja-mecab"
         else if text_lan = "zh" then "zh"
         else "13a")

/-- Lines 232-234: `results_dict.setdefault(source, []).append(item)`; the
per-tag bucket is the subsequence of `results` carrying that tag, in
original order. -/
def resultsForTag (results : List ResultItem) (tag : String) :
    List ResultItem :=
  results.filter (fun item => item.source == tag)

/-- Lines 243-249: `refs.append(result["gt"])` over a group's bucket. -/
def groupRefs (items : List ResultItem) : List String :=
  items.map (fun x => x.gt)

/-- Lines 243-249: `hyps.append(result["response"])` over a group's bucket. -/
def groupHyps (items : List ResultItem) : List String :=
  items.map (fun x => x.response)

/-- Line 251: the per-group `cnt: len(refs)` that is reported. -/
def sampleCount (results : List ResultItem) (tag : String) : Nat :=
  (groupRefs (resultsForTag results tag)).length

/-! ## Concrete fixtures for scenario checks -/

/-- A two-item batch submitted to inference. -/
def cexBatch : List EvalItem :=
  [{ prompt := "p1", source := "covost_en_de_dev", audio_path := "a1",
     gt := "g1" },
   { prompt := "p2", source := "covost_en_de_dev", audio_path := "a2",
     gt := "g2" }]

/-- An inference collaborator that returns one prediction regardless of the
batch length. -/
def shortInfer : List EvalItem → List String := fun _ => ["r1"]

def itemDe1 : ResultItem :=
  { gt := "gd1", response := "rd1", source := "covost_en_de_dev",
    audio_path := "ad1" }

def itemDe2 : ResultItem :=
  { gt := "gd2", response := "rd2", source := "covost_en_de_dev",
    audio_path := "ad2" }

def itemZh1 : ResultItem :=
  { gt := "gz1", response := "rz1", source := "covost_en_zh_dev",
    audio_path := "az1" }

def itemZh2 : ResultItem :=
  { gt := "gz2", response := "rz2", source := "covost_en_zh_dev",
    audio_path := "az2" }

/-- A merged result set with two groups of two items each. -/
def scenarioResults : List ResultItem := [itemDe1, itemZh1, itemDe2, itemZh2]

/-! ## Facts about `pyRange` -/

lemma pyRange_length (a b : Int) : (pyRange a b).length = (b - a).toNat := by
  simp [pyRange]

lemma mem_pyRange {i a b : Int} : i ∈ pyRange a b ↔ a ≤ i ∧ i < b := by
  simp only [pyRange, List.mem_map, List.mem_range]
  constructor
  · rintro ⟨j, hj, rfl⟩
    omega
  · intro h
    exact ⟨(i - a).toNat, by omega, by omega⟩

lemma pyRange_append (a b c : Int) (hab : a ≤ b) (hbc : b ≤ c) :
    pyRange a b ++ pyRange b c = pyRange a c := by
  have h : (c - a).toNat = (b - a).toNat + (c - b).toNat := by omega
  rw [pyRange, pyRange, pyRange, h, List.range_add, List.map_append,
    List.map_map]
  congr 1
  apply List.map_congr_left
  intro x hx
  simp only [Function.comp_apply]
  omega

/-! ## Facts about the shard plan -/

lemma shardSizes_length (N W : Int) : (shardSizes N W).length = W.toNat := by
  simp [shardSizes]

lemma shardSizes_getElem (N W : Int) (r : Nat)
    (hr : r < (shardSizes N W).length) :
    (shardSizes N W)[r] =
      N.fdiv W + if (r : Int) < N.fmod W then 1 else 0 := by
  simp [shardSizes]

/-- Closed form of the cumulative shard begin:
`shardBegin N W r = r * (N fdiv W) + min r (N fmod W)` for ranks up to the
world size. -/
lemma shardBegin_eq (N W : Int) (hW : 0 < W) (r : Nat) (hr : r ≤ W.toNat) :
    shardBegin N W r = r * N.fdiv W + min (r : Int) (N.fmod W) := by
  have hm : 0 ≤ N.fmod W := Int.fmod_nonneg' N hW
  induction r with
  | zero =>
      simp only [shardBegin, List.take_zero, List.sum_nil, Nat.cast_zero,
        zero_mul, zero_add]
      omega
  | succ k ih =>
      have hk : k ≤ W.toNat := by omega
      have hkl : k < (shardSizes N W).length := by
        rw [shardSizes_length]; omega
      rw [shardBegin, List.sum_take_succ _ k hkl, ← shardBegin, ih hk,
        shardSizes_getElem N W k hkl]
      rcases lt_or_le (k : Int) (N.fmod W) with h | h
      · rw [if_pos h, min_eq_left (by omega), min_eq_left (by push_cast; omega)]
        push_cast
        ring
      · rw [if_neg (by omega), min_eq_right h, min_eq_right (by push_cast; omega)]
        push_cast
        ring

lemma shardBegin_zero (N W : Int) : shardBegin N W 0 = 0 := rfl

/-- The shard sizes sum to the total size. -/
lemma shardBegin_top (N W : Int) (hW : 0 < W) :
    shardBegin N W W.toNat = N := by
  have hmW : N.fmod W < W := Int.fmod_lt_of_pos N hW
  have hWt : (W.toNat : Int) = W := Int.toNat_of_nonneg hW.le
  rw [shardBegin_eq N W hW W.toNat le_rfl, hWt,
    min_eq_right hmW.le]
  have hid := Int.fmod_add_fdiv N W
  linarith

lemma shardBegin_step (N W : Int) (r : Nat) (hr : r < W.toNat) :
    shardBegin N W (r + 1) =
      shardBegin N W r +
        (N.fdiv W + if (r : Int) < N.fmod W then 1 else 0) := by
  have hkl : r < (shardSizes N W).length := by
    rw [shardSizes_length]; omega
  rw [shardBegin, List.sum_take_succ _ r hkl, ← shardBegin,
    shardSizes_getElem N W r hkl]

lemma shardBegin_mono (N W : Int) (hN : 0 < N) (hW : 0 < W) {r s : Nat}
    (hrs : r ≤ s) (hs : s ≤ W.toNat) :
    shardBegin N W r ≤ shardBegin N W s := by
  have hd : 0 ≤ N.fdiv W := Int.fdiv_nonneg hN.le hW.le
  rw [shardBegin_eq N W hW r (le_trans hrs hs), shardBegin_eq N W hW s hs]
  have h1 : (r : Int) ≤ (s : Int) := by exact_mod_cast hrs
  have h2 : (r : Int) * N.fdiv W ≤ (s : Int) * N.fdiv W :=
    mul_le_mul_of_nonneg_right h1 hd
  have h3 : min (r : Int) (N.fmod W) ≤ min (s : Int) (N.fmod W) :=
    min_le_min h1 le_rfl
  linarith

/-- Within the world size, the clamp `min(..., total_size)` on line 130 is
inactive, so the local range runs from one cumulative begin to the next. -/
lemma shardEnd_eq (N W : Int) (hN : 0 < N) (hW : 0 < W) (r : Nat)
    (hr : r < W.toNat) :
    shardEnd N W r = shardBegin N W (r + 1) := by
  have hle : shardBegin N W (r + 1) ≤ N := by
    have h := shardBegin_mono N W hN hW (Nat.succ_le_of_lt hr) le_rfl
    rw [shardBegin_top N W hW] at h
    exact h
  exact min_eq_left hle

lemma localIndices_eq (N W : Int) (hN : 0 < N) (hW : 0 < W) (r : Nat)
    (hr : r < W.toNat) :
    localIndices N W r =
      pyRange (shardBegin N W r) (shardBegin N W (r + 1)) := by
  rw [localIndices, shardEnd_eq N W hN hW r hr]

/-- Concatenating consecutive integer ranges over a monotone sequence of
endpoints yields one big range. -/
lemma flatten_pyRanges (f : Nat → Int) :
    ∀ n : Nat, (∀ k l : Nat, k ≤ l → l ≤ n → f k ≤ f l) →
      ((List.range n).map (fun r => pyRange (f r) (f (r + 1)))).flatten =
        pyRange (f 0) (f n) := by
  intro n
  induction n with
  | zero =>
      intro _
      simp [pyRange]
  | succ m ih =>
      intro hmono
      rw [List.range_succ, List.map_append, List.flatten_append]
      simp only [List.map_cons, List.map_nil, List.flatten_cons,
        List.flatten_nil, List.append_nil]
      rw [ih (fun k l hk hl => hmono k l hk (Nat.le_succ_of_le hl))]
      exact pyRange_append _ _ _ (hmono 0 m (Nat.zero_le m) (Nat.le_succ m))
        (hmono m (m + 1) (Nat.le_succ m) le_rfl)

/-- The local ranges of all ranks, concatenated in rank order, are exactly
the index space `[0, N)`. -/
lemma plan_flatten (N W : Int) (hN : 0 < N) (hW : 0 < W) :
    ((List.range W.toNat).map (localIndices N W)).flatten = pyRange 0 N := by
  have h1 : (List.range W.toNat).map (localIndices N W) =
      (List.range W.toNat).map
        (fun r => pyRange (shardBegin N W r) (shardBegin N W (r + 1))) := by
    apply List.map_congr_left
    intro r hr
    exact localIndices_eq N W hN hW r (List.mem_range.mp hr)
  rw [h1,
    flatten_pyRanges (shardBegin N W) W.toNat
      (fun k l hk hl => shardBegin_mono N W hN hW hk hl),
    shardBegin_zero, shardBegin_top N W hW]

lemma mem_localIndices (N W : Int) (hN : 0 < N) (hW : 0 < W) (r : Nat)
    (hr : r < W.toNat) (i : Int) :
    i ∈ localIndices N W r ↔
      shardBegin N W r ≤ i ∧ i < shardBegin N W (r + 1) := by
  rw [localIndices_eq N W hN hW r hr, mem_pyRange]

/-- Every index of `[0, N)` lies in the local range of exactly one rank. -/
lemma plan_unique_rank (N W : Int) (hN : 0 < N) (hW : 0 < W) (i : Int)
    (h0 : 0 ≤ i) (hiN : i < N) :
    ∃! r : Nat, r < W.toNat ∧ i ∈ localIndices N W r := by
  have hmem : i ∈ pyRange 0 N := mem_pyRange.mpr ⟨h0, hiN⟩
  rw [← plan_flatten N W hN hW] at hmem
  rcases List.mem_flatten.mp hmem with ⟨l, hl, hil⟩
  rcases List.mem_map.mp hl with ⟨r, hr, rfl⟩
  have hrW := List.mem_range.mp hr
  refine ⟨r, ⟨hrW, hil⟩, ?_⟩
  rintro s ⟨hsW, his⟩
  have hbr := (mem_localIndices N W hN hW r hrW i).mp hil
  have hbs := (mem_localIndices N W hN hW s hsW i).mp his
  by_contra hne
  rcases Nat.lt_or_ge s r with h | h
  · have hub : shardBegin N W (s + 1) ≤ shardBegin N W r :=
      shardBegin_mono N W hN hW (Nat.succ_le_of_lt h) hrW.le
    linarith [hbr.1, hbs.2]
  · have hlt : r < s := lt_of_le_of_ne h (fun hh => hne hh.symm)
    have hub : shardBegin N W (r + 1) ≤ shardBegin N W s :=
      shardBegin_mono N W hN hW (Nat.succ_le_of_lt hlt) hsW.le
    linarith [hbr.2, hbs.1]

/-- Each rank's local range has the planned size `base + int(r < left)`. -/
lemma localIndices_length (N W : Int) (hN : 0 < N) (hW : 0 < W) (r : Nat)
    (hr : r < W.toNat) :
    ((localIndices N W r).length : Int) =
      N.fdiv W + if (r : Int) < N.fmod W then 1 else 0 := by
  have hd : 0 ≤ N.fdiv W := Int.fdiv_nonneg hN.le hW.le
  rw [localIndices_eq N W hN hW r hr, pyRange_length,
    shardBegin_step N W r hr]
  split
  · omega
  · omega

/-! ## Facts about the merge, the worker fold and the result zip -/

/-- Position `(sum of lengths before rank r) + i` of a flattened list of
lists is position `i` of the `r`-th list. -/
lemma flatten_getElem_eq :
    ∀ (L : List (List String)) (r i : Nat) (hr : r < L.length)
      (hi : i < L[r].length),
      L.flatten[((L.take r).map List.length).sum + i]? = some L[r][i]
  | [], r, i, hr, _ => absurd hr (by simp)
  | l :: L, 0, i, hr, hi => by
      simp only [List.getElem_cons_zero] at hi ⊢
      simp only [List.take_zero, List.map_nil, List.sum_nil, Nat.zero_add,
        List.flatten_cons]
      rw [List.getElem?_append_left hi, List.getElem?_eq_getElem hi]
  | l :: L, r + 1, i, hr, hi => by
      simp only [List.getElem_cons_succ] at hi ⊢
      simp only [List.take_succ_cons, List.map_cons, List.sum_cons,
        List.flatten_cons]
      rw [List.getElem?_append_right (by omega)]
      have hidx : l.length + ((L.take r).map List.length).sum + i -
          l.length = ((L.take r).map List.length).sum + i := by omega
      rw [hidx]
      exact flatten_getElem_eq L r i (by simpa using hr) hi

/-- Closed form of the worker-loop fold: each accumulator is its initial
value followed by the per-batch contributions in batch order. -/
lemma workerFold_eq (infer : List EvalItem → List String) :
    ∀ (batches : List (List EvalItem)) (st : WorkerState),
      batches.foldl (workerStep infer) st =
        { gts := st.gts ++
            (batches.map (fun b => b.map (fun x => x.gt))).flatten
          sources := st.sources ++
            (batches.map (fun b => b.map (fun x => x.source))).flatten
          rets := st.rets ++ (batches.map infer).flatten
          audio_paths := st.audio_paths ++
            (batches.map (fun b => b.map (fun x => x.audio_path))).flatten }
  | [], st => by simp
  | b :: batches, st => by
      rw [List.foldl_cons, workerFold_eq infer batches]
      simp [workerStep, List.append_assoc]

/-- The result zip stops at the shortest of the four merged lists. -/
lemma buildResults_length (g : List String) :
    ∀ (r s p : List String),
      (buildResults g r s p).length =
        min (min g.length r.length) (min s.length p.length) := by
  induction g with
  | nil =>
      intro r s p
      cases r <;> cases s <;> cases p <;> simp [buildResults]
  | cons x g ih =>
      intro r s p
      cases r with
      | nil => cases s <;> cases p <;> simp [buildResults]
      | cons y r =>
          cases s with
          | nil => cases p <;> simp [buildResults]
          | cons z s =>
              cases p with
              | nil => simp [buildResults]
              | cons w p =>
                  simp only [buildResults, List.length_cons, ih r s p]
                  omega

/-! ## Claim theorems -/

/-- C1: for every N > 0 and W > 0 the shard plan computed by
`InferenceSampler._get_local_indices` partitions `[0, N)` exactly: the
per-rank ranges concatenated in rank order are precisely `[0, N)`, every
index of `[0, N)` belongs to exactly one rank's range, and any two
per-rank sizes differ by at most 1. -/
theorem shard_plan_partitions (N W : Int) (hN : 0 < N) (hW : 0 < W) :
    ((List.range W.toNat).map (localIndices N W)).flatten = pyRange 0 N ∧
    (∀ i : Int, 0 ≤ i → i < N →
      ∃! r : Nat, r < W.toNat ∧ i ∈ localIndices N W r) ∧
    (∀ r s : Nat, r < W.toNat → s < W.toNat →
      ((localIndices N W r).length : Int) -
        ((localIndices N W s).length : Int) ≤ 1) := by
  refine ⟨plan_flatten N W hN hW,
    fun i h0 hiN => plan_unique_rank N W hN hW i h0 hiN, ?_⟩
  intro r s hr hs
  rw [localIndices_length N W hN hW r hr, localIndices_length N W hN hW s hs]
  split_ifs <;> omega

/-- Witness for C1, instantiated at N = 10, W = 3. -/
theorem shard_plan_partitions_witness :
    0 < (10 : Int) ∧ 0 < (3 : Int) ∧
    (((List.range (3 : Int).toNat).map (localIndices 10 3)).flatten =
        pyRange 0 10 ∧
      (∀ i : Int, 0 ≤ i → i < 10 →
        ∃! r : Nat, r < (3 : Int).toNat ∧ i ∈ localIndices 10 3 r) ∧
      (∀ r s : Nat, r < (3 : Int).toNat → s < (3 : Int).toNat →
        ((localIndices 10 3 r).length : Int) -
          ((localIndices 10 3 s).length : Int) ≤ 1)) :=
  ⟨by decide, by decide, shard_plan_partitions 10 3 (by decide) (by decide)⟩

/-- C8: concrete shard plans: N = 10, W = 3 yields ranges [0,4), [4,7),
[7,10) of sizes 4, 3, 3; N = 5, W = 5 yields the five singleton ranges
[0,1) through [4,5). -/
theorem shard_plan_examples :
    localIndices 10 3 0 = pyRange 0 4 ∧
    localIndices 10 3 1 = pyRange 4 7 ∧
    localIndices 10 3 2 = pyRange 7 10 ∧
    (localIndices 10 3 0).length = 4 ∧
    (localIndices 10 3 1).length = 3 ∧
    (localIndices 10 3 2).length = 3 ∧
    localIndices 5 5 0 = pyRange 0 1 ∧
    localIndices 5 5 1 = pyRange 1 2 ∧
    localIndices 5 5 2 = pyRange 2 3 ∧
    localIndices 5 5 3 = pyRange 3 4 ∧
    localIndices 5 5 4 = pyRange 4 5 ∧
    (localIndices 5 5 0).length = 1 ∧
    (localIndices 5 5 1).length = 1 ∧
    (localIndices 5 5 2).length = 1 ∧
    (localIndices 5 5 3).length = 1 ∧
    (localIndices 5 5 4).length = 1 := by
  decide

/-- C5 counterexample: with N = 5 > 0 and W = -1 ≤ 0 the sampler does not
fail at all — it silently yields an empty local range. -/
theorem sampler_no_failure_negative_world :
    samplerInit 5 (-1) 0 = Except.ok [] ∧ (-1 : Int) ≤ 0 :=
  ⟨rfl, by decide⟩

/-- C5 amended: sampler construction fails via the `size > 0` assertion
exactly when N ≤ 0, checked before any index computation; with N > 0 it
fails (with Python's ZeroDivisionError, not a validation error) exactly
when W = 0; for N > 0 and any W ≠ 0 — including negative W — it succeeds,
as a pure function of its arguments. -/
theorem sampler_validation (size world : Int) (rank : Nat) :
    (size ≤ 0 → samplerInit size world rank =
      Except.error PlanError.assertionError) ∧
    (0 < size → world = 0 → samplerInit size world rank =
      Except.error PlanError.zeroDivisionError) ∧
    (0 < size → world ≠ 0 → samplerInit size world rank =
      Except.ok (localIndices size world rank)) := by
  refine ⟨fun h => ?_, fun h1 h2 => ?_, fun h1 h2 => ?_⟩
  · simp only [samplerInit, if_neg (by omega : ¬ size > 0)]
  · simp only [samplerInit, if_pos (by omega : size > 0), if_pos h2]
  · simp only [samplerInit, if_pos (by omega : size > 0), if_neg h2]

/-- Witness for the amended C5: the three regimes at concrete inputs. -/
theorem sampler_validation_witness :
    samplerInit (-2) 4 0 = Except.error PlanError.assertionError ∧
    samplerInit 5 0 0 = Except.error PlanError.zeroDivisionError ∧
    samplerInit 5 2 0 = Except.ok (localIndices 5 2 0) :=
  ⟨(sampler_validation (-2) 4 0).1 (by decide),
   (sampler_validation 5 0 0).2.1 (by decide) rfl,
   (sampler_validation 5 2 0).2.2 (by decide) (by decide)⟩

/-- C2 counterexample: gathered per-worker lists totalling 3 items are
merged without any failure even though the planned total was 5; no
CountMismatch error is produced. -/
theorem aggregate_no_count_check :
    (([["a"], ["b", "c"]] : List (List String)).map List.length).sum ≠ 5 ∧
    aggregate [["a"], ["b", "c"]] = Except.ok ["a", "b", "c"] :=
  ⟨by decide, rfl⟩

/-- C2 amended: the aggregation after the barrier never fails: whatever
the gathered per-worker lists are, it produces their flat concatenation,
whose length is the sum of the gathered lengths; the code contains no
count check against the planned total. -/
theorem aggregate_always_merges (gathered : List (List String)) :
    ∃ merged : List String, aggregate gathered = Except.ok merged ∧
      merged.length = (gathered.map List.length).sum :=
  ⟨mergeGathered gathered, rfl, by simp [mergeGathered]⟩

/-- C3 counterexample: an inference collaborator returning one prediction
for a two-item batch: the worker loop raises nothing and stores the short
prediction list next to two ground truths, and the coordinator zip later
silently drops the unmatched item. -/
theorem worker_short_infer_no_violation :
    (shortInfer cexBatch).length + 1 = cexBatch.length ∧
    workerRun [cexBatch] shortInfer =
      Except.ok { gts := ["g1", "g2"],
                  sources := ["covost_en_de_dev", "covost_en_de_dev"],
                  rets := ["r1"], audio_paths := ["a1", "a2"] } ∧
    (buildResults ["g1", "g2"] ["r1"]
        ["covost_en_de_dev", "covost_en_de_dev"] ["a1", "a2"]).length = 1 :=
  ⟨rfl, rfl, rfl⟩

/-- C3 amended: the worker loop performs no length check on the inference
output: it always succeeds, accumulating ground truths from the items and
predictions exactly as returned by `infer`, and the coordinator zip then
truncates the result set to the shortest accumulator. -/
theorem worker_loop_no_length_check (batches : List (List EvalItem))
    (infer : List EvalItem → List String) :
    ∃ st : WorkerState, workerRun batches infer = Except.ok st ∧
      st.gts = (batches.map (fun b => b.map (fun x => x.gt))).flatten ∧
      st.rets = (batches.map infer).flatten ∧
      (buildResults st.gts st.rets st.sources st.audio_paths).length =
        min (min st.gts.length st.rets.length)
          (min st.sources.length st.audio_paths.length) := by
  refine ⟨batches.foldl (workerStep infer) ⟨[], [], [], []⟩, rfl, ?_, ?_, ?_⟩
  · rw [workerFold_eq]
    simp
  · rw [workerFold_eq]
    simp
  · exact buildResults_length _ _ _ _

/-- C6: the merged result set is the concatenation of the per-worker lists
in ascending rank order: its length is the total of the per-rank lengths,
the element at offset `i` within rank `r`'s block is rank `r`'s `i`-th
element (production order preserved), and per-element multiplicities are
preserved (no deduplication). -/
theorem merge_rank_order (gathered : List (List String)) (r i : Nat)
    (hr : r < gathered.length) (hi : i < gathered[r].length) :
    (mergeGathered gathered).length = (gathered.map List.length).sum ∧
    (mergeGathered gathered)[((gathered.take r).map List.length).sum + i]? =
      some gathered[r][i] ∧
    (∀ a : String, (mergeGathered gathered).count a =
      (gathered.map (List.count a)).sum) := by
  refine ⟨by simp [mergeGathered], flatten_getElem_eq gathered r i hr hi, ?_⟩
  intro a
  simp [mergeGathered, List.count_flatten]

/-- Witness for C6 at the gathered lists [["a"], ["b", "c"]], rank 1,
offset 0. -/
theorem merge_rank_order_witness :
    1 < ([["a"], ["b", "c"]] : List (List String)).length ∧
    0 < ([["a"], ["b", "c"]] : List (List String))[1].length ∧
    ((mergeGathered [["a"], ["b", "c"]]).length =
        (([["a"], ["b", "c"]] : List (List String)).map List.length).sum ∧
      (mergeGathered [["a"], ["b", "c"]])[((([["a"], ["b", "c"]] :
          List (List String)).take 1).map List.length).sum + 0]? =
        some (([["a"], ["b", "c"]] : List (List String))[1][0]) ∧
      (∀ a : String, (mergeGathered [["a"], ["b", "c"]]).count a =
        (([["a"], ["b", "c"]] : List (List String)).map
          (List.count a)).sum)) :=
  ⟨by decide, by decide,
    merge_rank_order [["a"], ["b", "c"]] 1 0 (by decide) (by decide)⟩

/-- C9: the reported dataset length is min(limit, S) when the limit is
strictly positive and S when it is zero or negative, and the shard plan
computed over this truncated length covers exactly the truncated index
space. -/
theorem dataset_len_truncation (limit : Int) (dsLen : Nat) (W : Int)
    (hW : 0 < W) :
    (0 < limit → datasetLen limit dsLen = min limit (dsLen : Int)) ∧
    (limit ≤ 0 → datasetLen limit dsLen = (dsLen : Int)) ∧
    (0 < datasetLen limit dsLen →
      ((List.range W.toNat).map
          (localIndices (datasetLen limit dsLen) W)).flatten =
        pyRange 0 (datasetLen limit dsLen)) := by
  refine ⟨fun h => ?_, fun h => ?_, fun h => plan_flatten _ W h hW⟩
  · simp only [datasetLen, if_pos h]
  · simp only [datasetLen, if_neg (by omega : ¬ limit > 0)]

/-- Witness for C9 at limit = 3 and limit = -1 over a 5-item dataset with
W = 2. -/
theorem dataset_len_truncation_witness :
    datasetLen 3 5 = min 3 ((5 : Nat) : Int) ∧
    datasetLen (-1) 5 = ((5 : Nat) : Int) ∧
    ((List.range (2 : Int).toNat).map
        (localIndices (datasetLen 3 5) 2)).flatten =
      pyRange 0 (datasetLen 3 5) :=
  ⟨(dataset_len_truncation 3 5 2 (by decide)).1 (by decide),
   (dataset_len_truncation (-1) 5 2 (by decide)).2.1 (by decide),
   (dataset_len_truncation 3 5 2 (by decide)).2.2 (by decide)⟩

/-- C10: the coordinator builds a results list whose length is the minimum
of the four merged list lengths: excess entries of longer lists are
silently dropped by the zip, and no error is raised (the zip is total). -/
theorem results_zip_truncates (gts rets srcs paths : List String) :
    (buildResults gts rets srcs paths).length =
      min (min gts.length rets.length) (min srcs.length paths.length) :=
  buildResults_length gts rets srcs paths

/-- C4: tokenizer policy derivation and group counts: the language segment
'ja' maps to the ja-aware tokenizer 'ja-mecab', 'zh' to the zh-aware 'zh',
and every other segment to the default '13a'; in particular
covost_en_de_dev is scored with the default and covost_en_zh_dev with the
zh-aware policy; a group's sample count is the number of merged items
carrying its tag, invariant under reordering of the merged items. -/
theorem group_policy_and_counts :
    resolvePolicy "covost_en_de_dev" = Except.ok "13a" ∧
    resolvePolicy "covost_en_zh_dev" = Except.ok "zh" ∧
    (∀ s : String, langSegment s = some "ja" →
      resolvePolicy s = Except.ok "ja-mecab") ∧
    (∀ s : String, langSegment s = some "zh" →
      resolvePolicy s = Except.ok "zh") ∧
    (∀ s seg : String, langSegment s = some seg → seg ≠ "ja" → seg ≠ "zh" →
      resolvePolicy s = Except.ok "13a") ∧
    (∀ (results : List ResultItem) (tag : String),
      sampleCount results tag =
        results.countP (fun item => item.source == tag)) ∧
    (∀ (results results2 : List ResultItem) (tag : String),
      results.Perm results2 →
      sampleCount results tag = sampleCount results2 tag) ∧
    sampleCount scenarioResults "covost_en_de_dev" = 2 ∧
    sampleCount scenarioResults "covost_en_zh_dev" = 2 := by
  refine ⟨rfl, rfl, ?_, ?_, ?_, ?_, ?_, rfl, rfl⟩
  · intro s h
    simp [resolvePolicy, h]
  · intro s h
    simp [resolvePolicy, h]
  · intro s seg h hja hzh
    simp [resolvePolicy, h, hja, hzh]
  · intro results tag
    simp [sampleCount, groupRefs, resultsForTag,
      List.countP_eq_length_filter]
  · intro results results2 tag h
    simp only [sampleCount, groupRefs, List.length_map, resultsForTag,
      ← List.countP_eq_length_filter]
    exact h.countP_eq _

/-- Witness for C4: each policy branch and the count facts at concrete
inputs, including order-independence for a transposed two-item group. -/
theorem group_policy_and_counts_witness :
    resolvePolicy "covost_ja_dev" = Except.ok "ja-mecab" ∧
    resolvePolicy "covost_zh_dev" = Except.ok "zh" ∧
    resolvePolicy "covost_en_de_dev" = Except.ok "13a" ∧
    sampleCount [itemDe1, itemDe2] "covost_en_de_dev" =
      [itemDe1, itemDe2].countP
        (fun item => item.source == "covost_en_de_dev") ∧
    sampleCount [itemDe1, itemDe2] "covost_en_de_dev" =
      sampleCount [itemDe2, itemDe1] "covost_en_de_dev" :=
  ⟨group_policy_and_counts.2.2.1 "covost_ja_dev" rfl,
   group_policy_and_counts.2.2.2.1 "covost_zh_dev" rfl,
   group_policy_and_counts.2.2.2.2.1 "covost_en_de_dev" "de" rfl
     (by decide) (by decide),
   group_policy_and_counts.2.2.2.2.2.1 [itemDe1, itemDe2] "covost_en_de_dev",
   group_policy_and_counts.2.2.2.2.2.2.1 [itemDe1, itemDe2]
     [itemDe2, itemDe1] "covost_en_de_dev"
     (List.Perm.swap itemDe2 itemDe1 [])⟩

/-- C7 counterexample: the tag "foo" yields no language segment, and the
scorer aborts with a fatal IndexError instead of recovering by falling
back to the default policy. -/
theorem malformed_tag_aborts :
    langSegment "foo" = none ∧
    resolvePolicy "foo" = Except.error ScoreError.indexError ∧
    resolvePolicy "foo" ≠ Except.ok "13a" := by
  refine ⟨rfl, rfl, ?_⟩
  simp [show resolvePolicy "foo" = Except.error ScoreError.indexError
    from rfl]

/-- C7 amended: tag parsing fails — with a fatal IndexError, not a
recoverable warning — exactly when the tag splits on underscores into
fewer than two pieces; for any tag with at least two pieces no error of
any kind is raised, and an unrecognized language code silently falls back
to the default tokenizer '13a'. -/
theorem policy_error_characterization (s : String) :
    (resolvePolicy s = Except.error ScoreError.indexError ↔
      (splitUnderscore s).length < 2) ∧
    (∀ seg : String, langSegment s = some seg → seg ≠ "ja" → seg ≠ "zh" →
      resolvePolicy s = Except.ok "13a") := by
  constructor
  · by_cases h : 2 ≤ (splitUnderscore s).length
    · simp only [resolvePolicy, langSegment, dif_pos h]
      constructor
      · intro hcontra
        exact Except.noConfusion hcontra
      · intro hlt
        exact absurd hlt (by omega)
    · simp only [resolvePolicy, langSegment, dif_neg h]
      constructor
      · intro _
        omega
      · intro _
        trivial
  · intro seg hseg hja hzh
    simp [resolvePolicy, hseg, hja, hzh]

/-- Witness for the amended C7: the fatal branch at "zzz" and the silent
default fallback at "a_b". -/
theorem policy_error_characterization_witness :
    resolvePolicy "zzz" = Except.error ScoreError.indexError ∧
    resolvePolicy "a_b" = Except.ok "13a" :=
  ⟨(policy_error_characterization "zzz").1.mpr (by decide),
   (policy_error_characterization "a_b").2 "a" (by decide) (by decide)
     (by decide)⟩

end EvalST
